import Mathlib

/-!
A shallow embedding of the async-context core (`src/async/async_context.ts`):
the process-wide context stack, the lifecycle dispatcher
(`onInitContext` / `onBeforeContext` / `onAfterContext`), the hook registry
(`AsyncHook.enable` / `AsyncHook.disable`) and the `AsyncLocal` value slot
(getter, setter, `withValue`), together with `AsyncContext`
(constructor, `current`, `parentOf`, `runInScope`).

Modelling conventions:
* Context objects and hook-callback objects are identified by natural
  numbers standing for JS reference identity.
* Values stored in a locals store are drawn from an abstract type `V`
  (an `AsyncLocal<T>` value; a JS `undefined` value is just one more
  inhabitant chosen by the instantiation, e.g. `none : Option Nat`).
* Exceptions are modelled by `Except Nat`, the `Nat` identifying the
  thrown value, so that unchanged re-raising is observable.
* A hook callback is modelled by its observable interface at this layer:
  present or absent, and, when invoked, either returning normally or
  throwing.  Dispatch additionally records the invocation trace
  (callback-object id, context argument) in order.
* The JS array `contextStack` is kept head-first: the list head is the
  array's last element (`.at(-1)` / `push` / `pop` end).
-/

namespace AsyncContextSpec

/-- Data attached to one context object: the `parentContextSymbol` slot and
the `asyncLocalDataSymbol` slot (`none` while that WeakMap has not been
created yet; keys are AsyncLocal identities). -/
structure ContextData (V : Type) where
  parent : Option Nat
  locals : Option (List (Nat × V))
deriving DecidableEq

/-- A hook-callback bundle (`AsyncHookCallbacks`).  `id` models the JS
reference identity of the callbacks object; each phase field is `none` when
the callback is absent and `some thr` when present, `thr` recording whether
invoking that callback throws. -/
structure HookBundle where
  id : Nat
  init : Option Bool
  before : Option Bool
  after : Option Bool
  promiseResolve : Option Bool
deriving DecidableEq

/-- The module-level mutable state: the allocated context objects, the
`contextStack` (head = top), the `asyncHookCallbacks` registry in
registration order, and an allocation counter for fresh context ids. -/
structure St (V : Type) where
  contexts : List (Nat × ContextData V)
  contextStack : List Nat
  asyncHookCallbacks : List HookBundle
  nextCtx : Nat
deriving DecidableEq

variable {V A : Type}

/-- Association-list lookup (first entry wins), used for the context table
and for locals stores. -/
def assocGet : List (Nat × A) → Nat → Option A
  | [], _ => none
  | e :: rest, k => if e.1 = k then some e.2 else assocGet rest k

/-- Association-list update-or-insert, modelling `WeakMap.set`. -/
def assocSet : List (Nat × A) → Nat → A → List (Nat × A)
  | [], k, v => [(k, v)]
  | e :: rest, k, v => if e.1 = k then (k, v) :: rest else e :: assocSet rest k v

/-- Association-list in-place modification of the entry for `k` (inserting
`g dflt` when absent), used to model mutation of one context object's
slots. -/
def assocUpdate (dflt : A) (g : A → A) : List (Nat × A) → Nat → List (Nat × A)
  | [], k => [(k, g dflt)]
  | e :: rest, k => if e.1 = k then (k, g e.2) :: rest else e :: assocUpdate dflt g rest k

theorem assocGet_set_self (m : List (Nat × A)) (k : Nat) (v : A) :
    assocGet (assocSet m k v) k = some v := by
  induction m with
  | nil => simp [assocGet, assocSet]
  | cons e rest ih =>
    by_cases h : e.1 = k <;> simp [assocGet, assocSet, h, ih]

theorem assocGet_set_other (m : List (Nat × A)) (k k' : Nat) (v : A) (h : k' ≠ k) :
    assocGet (assocSet m k v) k' = assocGet m k' := by
  induction m with
  | nil => simp [assocGet, assocSet, Ne.symm h]
  | cons e rest ih =>
    by_cases he : e.1 = k
    · have hek' : e.1 ≠ k' := by rw [he]; exact Ne.symm h
      simp [assocGet, assocSet, he, hek', Ne.symm h]
    · by_cases he' : e.1 = k' <;> simp [assocGet, assocSet, he, he', ih, h]

theorem assocGet_update_self (dflt : A) (g : A → A) (m : List (Nat × A)) (k : Nat) :
    assocGet (assocUpdate dflt g m k) k = some (g ((assocGet m k).getD dflt)) := by
  induction m with
  | nil => simp [assocGet, assocUpdate]
  | cons e rest ih =>
    by_cases h : e.1 = k <;> simp [assocGet, assocUpdate, h, ih]

theorem assocGet_update_other (dflt : A) (g : A → A) (m : List (Nat × A)) (k k' : Nat)
    (h : k' ≠ k) :
    assocGet (assocUpdate dflt g m k) k' = assocGet m k' := by
  induction m with
  | nil => simp [assocGet, assocUpdate, Ne.symm h]
  | cons e rest ih =>
    by_cases he : e.1 = k
    · have hek' : e.1 ≠ k' := by rw [he]; exact Ne.symm h
      simp [assocGet, assocUpdate, he, hek', Ne.symm h]
    · by_cases he' : e.1 = k' <;> simp [assocGet, assocUpdate, he, he', ih, h]

/-- The default (freshly created, slot-free) context object. -/
def emptyCtx : ContextData V := ⟨none, none⟩

/-- Lookup of a context object's data by identity. -/
def lookupCtx (st : St V) (c : Nat) : Option (ContextData V) := assocGet st.contexts c

/-- The data of context `c`, defaulting to a slot-free object (unallocated
ids never occur in reachable states). -/
def ctxOf (st : St V) (c : Nat) : ContextData V := (lookupCtx st c).getD emptyCtx

/-- The stored `parentContextSymbol` slot of context `c` (`AsyncContext.parentOf`). -/
def parentOfSt (st : St V) (c : Nat) : Option Nat := (ctxOf st c).parent

/-- The `asyncLocalDataSymbol` store of context `c`, the missing WeakMap read
as empty. -/
def localsOf (st : St V) (c : Nat) : List (Nat × V) := (ctxOf st c).locals.getD []

/-- The entry for AsyncLocal `l` in context `c`'s locals store. -/
def ctxLocalGet (st : St V) (c : Nat) (l : Nat) : Option V := assocGet (localsOf st c) l

/-- Top of the context stack (`AsyncContext.current()`, i.e. `contextStack.at(-1)`). -/
def currentCtx (st : St V) : Option Nat := st.contextStack.head?

/-- Fan a lifecycle notification out to the registered bundles in
registration order (the `for ... of asyncHookCallbacks` loops).  `sel`
selects the phase's field, `c` is the argument passed to each callback.
Returns the invocation trace (callback-object id, argument) and the
outcome: a callback that throws is still invoked (recorded) but stops the
loop with its exception, modelling unguarded propagation. -/
def dispatchHooks (sel : HookBundle → Option Bool) (c : Nat) :
    List HookBundle → List (Nat × Nat) × Except Nat Unit
  | [] => ([], Except.ok ())
  | b :: rest =>
    match sel b with
    | none => dispatchHooks sel c rest
    | some thr =>
      if thr then ([(b.id, c)], Except.error b.id)
      else
        let r := dispatchHooks sel c rest
        ((b.id, c) :: r.1, r.2)

/-- Overwrite the `parentContextSymbol` slot of context `c`
(`context[parentContextSymbol] = ...`), keeping its locals store. -/
def setParent (st : St V) (c : Nat) (p : Option Nat) : St V :=
  { st with contexts :=
      assocUpdate emptyCtx (fun d => ⟨p, d.locals⟩) st.contexts c }

/-- The `onInitContext` handler: store `AsyncContext.current()` as the
parent of `c`, then dispatch the `init` callbacks (each receives the
context; its parent argument is determined by the updated state). -/
def onInitContext (st : St V) (c : Nat) : St V × List (Nat × Nat) × Except Nat Unit :=
  let st1 := setParent st c (currentCtx st)
  let d := dispatchHooks (fun b => b.init) c st1.asyncHookCallbacks
  (st1, d.1, d.2)

/-- The `onBeforeContext` handler: push `c` and dispatch the `before`
callbacks. -/
def onBeforeContext (st : St V) (c : Nat) : St V × List (Nat × Nat) × Except Nat Unit :=
  let st1 := { st with contextStack := c :: st.contextStack }
  let d := dispatchHooks (fun b => b.before) c st1.asyncHookCallbacks
  (st1, d.1, d.2)

/-- The `onAfterContext` handler: pop the top of the stack, push the popped
frame back when it exists and is not reference-identical to `c`, then
dispatch the `after` callbacks. -/
def onAfterContext (st : St V) (c : Nat) : St V × List (Nat × Nat) × Except Nat Unit :=
  let newStack :=
    match st.contextStack with
    | [] => []
    | p :: rest => if p = c then rest else p :: rest
  let st1 := { st with contextStack := newStack }
  let d := dispatchHooks (fun b => b.after) c st1.asyncHookCallbacks
  (st1, d.1, d.2)

/-- The `new AsyncContext()` constructor with no argument: allocate a fresh
context object and run `onInitContext` on it.  Returns the new state, the
fresh context id, and the init dispatch trace/outcome. -/
def newAsyncContext (st : St V) : (St V × Nat) × List (Nat × Nat) × Except Nat Unit :=
  let c := st.nextCtx
  let st1 : St V :=
    { st with nextCtx := c + 1, contexts := (c, emptyCtx) :: st.contexts }
  let r := onInitContext st1 c
  ((r.1, c), r.2)

/-- The `new AsyncContext(contextObject)` constructor applied to an already
existing context object `c`: no allocation, `onInitContext` runs again on
`c` (overwriting its stored parent with the current context). -/
def newAsyncContextOn (st : St V) (c : Nat) : St V × List (Nat × Nat) × Except Nat Unit :=
  onInitContext st c

/-- The `runInScope` method of the wrapper holding context object `c`:
`onBeforeContext` outside the protected region, then the callback inside
`try`, with `onAfterContext` in the `finally` (whose own exception, if
any, replaces the callback's outcome, as in JS). -/
def runInScope (c : Nat) (f : St V → St V × Except Nat A) (st : St V) :
    St V × Except Nat A :=
  let b := onBeforeContext st c
  match b.2.2 with
  | Except.error e => (b.1, Except.error e)
  | Except.ok _ =>
    let r := f b.1
    let a := onAfterContext r.1 c
    match a.2.2 with
    | Except.error e => (a.1, Except.error e)
    | Except.ok _ => (a.1, r.2)

/-- The `AsyncLocal` setter (`set value`): create the current context's
locals WeakMap if needed and bind this AsyncLocal (`l`) to `newValue`.
With an empty stack the JS setter would fault on `undefined`; that state is
unreachable after bootstrap and is modelled as a no-op. -/
def setLocalFun (l : Nat) (v : V) : ContextData V → ContextData V :=
  fun d => ⟨d.parent, some (assocSet (d.locals.getD []) l v)⟩

/-- Applies the setter's mutation to the current context's data. -/
def setLocalValue (st : St V) (l : Nat) (v : V) : St V :=
  match currentCtx st with
  | none => st
  | some c =>
    { st with contexts := assocUpdate emptyCtx (setLocalFun l v) st.contexts c }

/-- The `AsyncLocal` getter loop body: starting from an optional context,
walk parent links; the first locals store containing an entry for `l`
(membership tested before reading, `none` = absent key) yields its value,
an exhausted chain yields the initial value `v0`.  The JS loop is
unbounded; it is totalised by fuel, and every theorem using it either
supplies sufficient fuel or assumes the reachable-state invariant that
parent ids strictly decrease. -/
def getValueFrom (st : St V) (l : Nat) (v0 : V) : Nat → Option Nat → V
  | _, none => v0
  | 0, some _ => v0
  | fuel + 1, some c =>
    match ctxLocalGet st c l with
    | some x => x
    | none => getValueFrom st l v0 fuel (parentOfSt st c)

/-- The `AsyncLocal` getter (`get value`): walk from `AsyncContext.current()`.
The fuel `st.nextCtx` bounds every parent chain of a reachable state. -/
def getValue (st : St V) (l : Nat) (v0 : V) : V :=
  getValueFrom st l v0 st.nextCtx (currentCtx st)

/-- The `withValue` method of AsyncLocal `l`: create one fresh child
context, then `runInScope` on it a closure that first sets `l` to `value`
in that frame and then invokes the callback.  An exception from the
constructor's init dispatch propagates before the scope is entered. -/
def withValue (l : Nat) (v : V) (f : St V → St V × Except Nat A) (st : St V) :
    St V × Except Nat A :=
  let n := newAsyncContext st
  match n.2.2 with
  | Except.error e => (n.1.1, Except.error e)
  | Except.ok _ => runInScope n.1.2 (fun s => f (setLocalValue s l v)) n.1.1

/-- The `AsyncHook.enable` method: append this hook's callbacks object to
the registry (the `enablePromiseTracking` wiring concerns only the external
scheduler and has no observable effect at this layer). -/
def enableHook (st : St V) (b : HookBundle) : St V :=
  { st with asyncHookCallbacks := st.asyncHookCallbacks ++ [b] }

/-- Remove the first bundle whose callbacks object is reference-identical
to the one of id `i` (`indexOf` + `splice(index, 1)`); no-op when absent. -/
def removeFirstById (i : Nat) : List HookBundle → List HookBundle
  | [] => []
  | b :: rest => if b.id = i then rest else b :: removeFirstById i rest

/-- The `AsyncHook.disable` method. -/
def disableHook (st : St V) (b : HookBundle) : St V :=
  { st with asyncHookCallbacks := removeFirstById b.id st.asyncHookCallbacks }

/-- The module bootstrap: `const topLevelContext = new AsyncContext()` on an
empty stack and empty registry (its parent is therefore absent), followed by
`contextStack.push(topLevelContext)`. -/
def initSt (V : Type) : St V :=
  let n := newAsyncContext (⟨[], [], [], 0⟩ : St V)
  { n.1.1 with contextStack := n.1.2 :: (n.1.1).contextStack }

/-- User-side call sequences built from the public operations: returning,
throwing, sequencing, the AsyncLocal setter, `withValue`, `runInScope` on a
freshly constructed `AsyncContext`, and `runInScope` on an already created
context object. -/
inductive Prog (V : Type) where
  | ret : Prog V
  | raiseE : Nat → Prog V
  | seq : Prog V → Prog V → Prog V
  | setL : Nat → V → Prog V
  | withV : Nat → V → Prog V → Prog V
  | inNew : Prog V → Prog V
  | runOn : Nat → Prog V → Prog V

/-- Run a call sequence: each constructor is interpreted by the
corresponding operation of the embedding; `seq` short-circuits on a
failure as `;` does under exceptions. -/
def runP : Prog V → St V → St V × Except Nat Unit
  | Prog.ret, st => (st, Except.ok ())
  | Prog.raiseE e, st => (st, Except.error e)
  | Prog.seq p q, st =>
    let r := runP p st
    match r.2 with
    | Except.error e => (r.1, Except.error e)
    | Except.ok _ => runP q r.1
  | Prog.setL l v, st => (setLocalValue st l v, Except.ok ())
  | Prog.withV l v p, st => withValue l v (fun s => runP p s) st
  | Prog.inNew p, st =>
    let n := newAsyncContext st
    match n.2.2 with
    | Except.error e => (n.1.1, Except.error e)
    | Except.ok _ => runInScope n.1.2 (fun s => runP p s) n.1.1
  | Prog.runOn c p, st => runInScope c (fun s => runP p s) st

/-- Projection of the outcome of an exception-carrying result. -/
def errOf : Except Nat A → Option Nat
  | Except.error e => some e
  | Except.ok _ => none

/-- No bundle registered in `st` has a throwing `before` callback. -/
def BeforeSafe (st : St V) : Prop :=
  ∀ b ∈ st.asyncHookCallbacks, b.before ≠ some true

/-- No bundle registered in `st` has a throwing callback in any phase used
by the synchronous operations. -/
def HooksSafe (st : St V) : Prop :=
  ∀ b ∈ st.asyncHookCallbacks,
    b.init ≠ some true ∧ b.before ≠ some true ∧ b.after ≠ some true

theorem dispatchHooks_ok (sel : HookBundle → Option Bool) (c : Nat)
    (hooks : List HookBundle) (h : ∀ b ∈ hooks, sel b ≠ some true) :
    (dispatchHooks sel c hooks).2 = Except.ok () := by
  induction hooks with
  | nil => rfl
  | cons b rest ih =>
    have hb := h b (by simp)
    have hrest : ∀ b' ∈ rest, sel b' ≠ some true :=
      fun b' hb' => h b' (List.mem_cons_of_mem _ hb')
    cases hsel : sel b with
    | none => simpa [dispatchHooks, hsel] using ih hrest
    | some thr =>
      cases thr with
      | false => simpa [dispatchHooks, hsel] using ih hrest
      | true => exact absurd hsel hb

theorem dispatchHooks_trace (sel : HookBundle → Option Bool) (c : Nat)
    (hooks : List HookBundle) (h : ∀ b ∈ hooks, sel b ≠ some true) :
    (dispatchHooks sel c hooks).1 =
      hooks.filterMap (fun b => (sel b).map (fun _ => (b.id, c))) := by
  induction hooks with
  | nil => rfl
  | cons b rest ih =>
    have hb := h b (by simp)
    have hrest : ∀ b' ∈ rest, sel b' ≠ some true :=
      fun b' hb' => h b' (List.mem_cons_of_mem _ hb')
    cases hsel : sel b with
    | none => simpa [dispatchHooks, hsel] using ih hrest
    | some thr =>
      cases thr with
      | false => simpa [dispatchHooks, hsel] using ih hrest
      | true => exact absurd hsel hb

theorem setParent_contextStack (st : St V) (c : Nat) (p : Option Nat) :
    (setParent st c p).contextStack = st.contextStack := rfl

theorem setParent_hooks (st : St V) (c : Nat) (p : Option Nat) :
    (setParent st c p).asyncHookCallbacks = st.asyncHookCallbacks := rfl

theorem setParent_nextCtx (st : St V) (c : Nat) (p : Option Nat) :
    (setParent st c p).nextCtx = st.nextCtx := rfl

theorem onInitContext_fst (st : St V) (c : Nat) :
    (onInitContext st c).1 = setParent st c (currentCtx st) := rfl

theorem onInitContext_exc (st : St V) (c : Nat) :
    (onInitContext st c).2.2 =
      (dispatchHooks (fun b => b.init) c st.asyncHookCallbacks).2 := rfl

theorem onBeforeContext_fst (st : St V) (c : Nat) :
    (onBeforeContext st c).1 = { st with contextStack := c :: st.contextStack } := rfl

theorem onBeforeContext_exc (st : St V) (c : Nat) :
    (onBeforeContext st c).2.2 =
      (dispatchHooks (fun b => b.before) c st.asyncHookCallbacks).2 := rfl

theorem onAfterContext_hooks (st : St V) (c : Nat) :
    (onAfterContext st c).1.asyncHookCallbacks = st.asyncHookCallbacks := by
  cases st.contextStack with
  | nil => rfl
  | cons p rest => simp [onAfterContext]

theorem onAfterContext_contexts (st : St V) (c : Nat) :
    (onAfterContext st c).1.contexts = st.contexts := by
  cases st.contextStack with
  | nil => rfl
  | cons p rest => simp [onAfterContext]

theorem onAfterContext_nextCtx (st : St V) (c : Nat) :
    (onAfterContext st c).1.nextCtx = st.nextCtx := by
  cases st.contextStack with
  | nil => rfl
  | cons p rest => simp [onAfterContext]

theorem onAfterContext_stack_cons (st : St V) (c p : Nat) (rest : List Nat)
    (h : st.contextStack = p :: rest) :
    (onAfterContext st c).1.contextStack = if p = c then rest else p :: rest := by
  simp [onAfterContext, h]

theorem onAfterContext_exc (st : St V) (c : Nat) :
    (onAfterContext st c).2.2 =
      (dispatchHooks (fun b => b.after) c st.asyncHookCallbacks).2 := by
  cases st.contextStack with
  | nil => rfl
  | cons p rest => simp [onAfterContext]

theorem newAsyncContext_id (st : St V) : (newAsyncContext st).1.2 = st.nextCtx := rfl

theorem newAsyncContext_contextStack (st : St V) :
    ((newAsyncContext st).1.1).contextStack = st.contextStack := rfl

theorem newAsyncContext_hooks (st : St V) :
    ((newAsyncContext st).1.1).asyncHookCallbacks = st.asyncHookCallbacks := rfl

theorem newAsyncContext_nextCtx (st : St V) :
    ((newAsyncContext st).1.1).nextCtx = st.nextCtx + 1 := rfl

theorem newAsyncContext_exc (st : St V) :
    (newAsyncContext st).2.2 =
      (dispatchHooks (fun b => b.init) st.nextCtx st.asyncHookCallbacks).2 := rfl

theorem newAsyncContext_parent (st : St V) :
    parentOfSt ((newAsyncContext st).1.1) st.nextCtx = currentCtx st := by
  simp [newAsyncContext, onInitContext, parentOfSt, ctxOf, lookupCtx, setParent,
    assocUpdate, assocGet, currentCtx]

theorem setLocalValue_contextStack (st : St V) (l : Nat) (v : V) :
    (setLocalValue st l v).contextStack = st.contextStack := by
  cases h : currentCtx st <;> simp [setLocalValue, h]

theorem setLocalValue_hooks (st : St V) (l : Nat) (v : V) :
    (setLocalValue st l v).asyncHookCallbacks = st.asyncHookCallbacks := by
  cases h : currentCtx st <;> simp [setLocalValue, h]

theorem setLocalValue_nextCtx (st : St V) (l : Nat) (v : V) :
    (setLocalValue st l v).nextCtx = st.nextCtx := by
  cases h : currentCtx st <;> simp [setLocalValue, h]

theorem runInScope_hooks (c : Nat) (f : St V → St V × Except Nat A) (st : St V)
    (hf : ∀ s, (f s).1.asyncHookCallbacks = s.asyncHookCallbacks) :
    (runInScope c f st).1.asyncHookCallbacks = st.asyncHookCallbacks := by
  simp only [runInScope]
  cases hb : (onBeforeContext st c).2.2 with
  | error e => simp [onBeforeContext_fst]
  | ok u =>
    cases ha : (onAfterContext (f (onBeforeContext st c).1).1 c).2.2 <;>
      simp [onAfterContext_hooks, hf, onBeforeContext_fst]

theorem runInScope_stack (c : Nat) (f : St V → St V × Except Nat A) (st : St V)
    (hsafe : BeforeSafe st)
    (hf : (f { st with contextStack := c :: st.contextStack }).1.contextStack
            = c :: st.contextStack) :
    (runInScope c f st).1.contextStack = st.contextStack := by
  have hok : (onBeforeContext st c).2.2 = Except.ok () := by
    rw [onBeforeContext_exc]; exact dispatchHooks_ok _ _ _ hsafe
  simp only [runInScope, hok]
  have hstack : (f (onBeforeContext st c).1).1.contextStack = c :: st.contextStack := by
    rw [onBeforeContext_fst]; exact hf
  have hafter := onAfterContext_stack_cons (f (onBeforeContext st c).1).1 c c
    st.contextStack hstack
  cases ha : (onAfterContext (f (onBeforeContext st c).1).1 c).2.2 <;>
    simp [hafter]

theorem runInScope_nextCtx (c : Nat) (f : St V → St V × Except Nat A) (st : St V)
    (hf : ∀ s, (f s).1.nextCtx = s.nextCtx) :
    (runInScope c f st).1.nextCtx = st.nextCtx := by
  simp only [runInScope]
  cases hb : (onBeforeContext st c).2.2 with
  | error e => simp [onBeforeContext_fst]
  | ok u =>
    cases ha : (onAfterContext (f (onBeforeContext st c).1).1 c).2.2 <;>
      simp [onAfterContext_nextCtx, hf, onBeforeContext_fst]

theorem runP_hooks (p : Prog V) (st : St V) :
    (runP p st).1.asyncHookCallbacks = st.asyncHookCallbacks := by
  induction p generalizing st with
  | ret => rfl
  | raiseE e => rfl
  | seq p q ihp ihq =>
    simp only [runP]
    cases h : (runP p st).2 with
    | error e => exact ihp st
    | ok u => rw [ihq, ihp]
  | setL l v => simp [runP, setLocalValue_hooks]
  | withV l v p ih =>
    simp only [runP, withValue]
    cases h : (newAsyncContext st).2.2 with
    | error e => exact newAsyncContext_hooks st
    | ok u =>
      rw [runInScope_hooks]
      · exact newAsyncContext_hooks st
      · intro s; rw [ih, setLocalValue_hooks]
  | inNew p ih =>
    simp only [runP]
    cases h : (newAsyncContext st).2.2 with
    | error e => exact newAsyncContext_hooks st
    | ok u =>
      rw [runInScope_hooks]
      · exact newAsyncContext_hooks st
      · intro s; exact ih s
  | runOn c p ih => exact runInScope_hooks c _ st (fun s => ih s)

theorem beforeSafe_of_hooks_eq {st st' : St V}
    (h : st'.asyncHookCallbacks = st.asyncHookCallbacks) (hs : BeforeSafe st) :
    BeforeSafe st' := by
  intro b hb; exact hs b (h ▸ hb)

theorem runP_stack (p : Prog V) (st : St V) (hsafe : BeforeSafe st) :
    (runP p st).1.contextStack = st.contextStack := by
  induction p generalizing st with
  | ret => rfl
  | raiseE e => rfl
  | seq p q ihp ihq =>
    simp only [runP]
    cases h : (runP p st).2 with
    | error e => exact ihp st hsafe
    | ok u =>
      rw [ihq _ (beforeSafe_of_hooks_eq (runP_hooks p st) hsafe), ihp _ hsafe]
  | setL l v => simp [runP, setLocalValue_contextStack]
  | withV l v p ih =>
    simp only [runP, withValue]
    cases h : (newAsyncContext st).2.2 with
    | error e => exact newAsyncContext_contextStack st
    | ok u =>
      have hs1 : BeforeSafe ((newAsyncContext st).1.1) :=
        beforeSafe_of_hooks_eq (newAsyncContext_hooks st) hsafe
      rw [runInScope_stack _ _ _ hs1, newAsyncContext_contextStack]
      have hs2 : BeforeSafe (setLocalValue
          { (newAsyncContext st).1.1 with
            contextStack := (newAsyncContext st).1.2 ::
              ((newAsyncContext st).1.1).contextStack } l v) :=
        beforeSafe_of_hooks_eq
          ((setLocalValue_hooks _ l v).trans (newAsyncContext_hooks st)) hsafe
      rw [ih _ hs2, setLocalValue_contextStack]
  | inNew p ih =>
    simp only [runP]
    cases h : (newAsyncContext st).2.2 with
    | error e => exact newAsyncContext_contextStack st
    | ok u =>
      have hs1 : BeforeSafe ((newAsyncContext st).1.1) :=
        beforeSafe_of_hooks_eq (newAsyncContext_hooks st) hsafe
      rw [runInScope_stack _ _ _ hs1, newAsyncContext_contextStack]
      exact ih _ (beforeSafe_of_hooks_eq (newAsyncContext_hooks st) hsafe)
  | runOn c p ih =>
    refine runInScope_stack _ _ _ hsafe ?_
    exact ih _ (beforeSafe_of_hooks_eq rfl hsafe)

instance (st : St V) : Decidable (BeforeSafe st) :=
  inferInstanceAs (Decidable (∀ b ∈ st.asyncHookCallbacks, b.before ≠ some true))

instance (st : St V) : Decidable (HooksSafe st) :=
  inferInstanceAs (Decidable (∀ b ∈ st.asyncHookCallbacks,
    b.init ≠ some true ∧ b.before ≠ some true ∧ b.after ≠ some true))

/-- C2: for every sequence of nested withValue/runInScope calls, including
calls whose callback raises a failure, the context-stack depth after the
outer call returns (or raises) equals the stack depth before it was called:
the push performed by onResume is matched by the pop performed by onSuspend
even when the user callback raises.  (The registered hooks themselves are
assumed not to throw in the resume phase; a throwing before-hook is the
separate concern of the C5 analysis.) -/
theorem C2_stack_balance (p : Prog V) (st : St V) (hsafe : BeforeSafe st) :
    ((runP p st).1).contextStack.length = st.contextStack.length := by
  rw [runP_stack p st hsafe]

/-- Witness for C2 at a concrete input: a withValue call whose callback
raises leaves the bootstrap stack depth unchanged. -/
theorem C2_stack_balance_witness :
    BeforeSafe (initSt Nat) ∧
      ((runP (Prog.withV 0 5 (Prog.raiseE 7)) (initSt Nat)).1).contextStack.length
        = (initSt Nat).contextStack.length :=
  ⟨by decide, C2_stack_balance (Prog.withV 0 5 (Prog.raiseE 7)) (initSt Nat) (by decide)⟩

/-- C5 fails on the code: with one registered bundle whose before callback
throws, `runInScope` of a fresh context raises the hook's exception and
leaves the context stack one frame deeper than before the call, because
`onBeforeContext` (push, then before-hook dispatch) sits outside the
`try`/`finally` that performs the matching pop. -/
theorem C5_before_hook_unbalances_stack :
    (enableHook (initSt Nat) ⟨7, none, some true, none, none⟩).contextStack.length = 1 ∧
    (runP (Prog.inNew Prog.ret)
        (enableHook (initSt Nat) ⟨7, none, some true, none, none⟩)).1.contextStack.length
      = 2 ∧
    errOf (runP (Prog.inNew Prog.ret)
        (enableHook (initSt Nat) ⟨7, none, some true, none, none⟩)).2 = some 7 := by
  decide

theorem onAfterContext_trace (st : St V) (c : Nat) :
    (onAfterContext st c).2.1 =
      (dispatchHooks (fun b => b.after) c st.asyncHookCallbacks).1 := by
  cases st.contextStack with
  | nil => rfl
  | cons p rest => simp [onAfterContext]

/-- C6: for every context `c` and stack state with top `t`, the suspension
handler pops the top; when the popped frame is not reference-identical to
`c` it is pushed back, leaving the stack exactly as it was, and when
`t = c` the operation is a single pop.  Afterwards every registered
bundle's after callback (none of which throws) is invoked with `c`, in
registration order. -/
theorem C6_onAfterContext (st : St V) (c t : Nat) (rest : List Nat)
    (hs : st.contextStack = t :: rest) :
    (t = c → (onAfterContext st c).1.contextStack = rest) ∧
    (t ≠ c → (onAfterContext st c).1.contextStack = st.contextStack) ∧
    ((∀ b ∈ st.asyncHookCallbacks, b.after ≠ some true) →
      (onAfterContext st c).2.1 =
        st.asyncHookCallbacks.filterMap
          (fun b => b.after.map (fun _ => (b.id, c)))) := by
  refine ⟨?_, ?_, ?_⟩
  · intro h
    rw [onAfterContext_stack_cons st c t rest hs]
    simp [h]
  · intro h
    rw [onAfterContext_stack_cons st c t rest hs, hs]
    simp [h]
  · intro h
    rw [onAfterContext_trace, dispatchHooks_trace _ _ _ h]

/-- Witness for C6 at a concrete input: a stack whose top is the suspended
context (straight pop) with one registered after callback. -/
theorem C6_onAfterContext_witness :
    ((5 : Nat) = 5 →
      (onAfterContext (⟨[], [5], [⟨3, none, none, some false, none⟩], 0⟩ : St Nat)
          5).1.contextStack = []) ∧
    ((5 : Nat) ≠ 5 →
      (onAfterContext (⟨[], [5], [⟨3, none, none, some false, none⟩], 0⟩ : St Nat)
          5).1.contextStack = [5]) ∧
    ((∀ b ∈ [(⟨3, none, none, some false, none⟩ : HookBundle)], b.after ≠ some true) →
      (onAfterContext (⟨[], [5], [⟨3, none, none, some false, none⟩], 0⟩ : St Nat)
          5).2.1 = [(3, 5)]) :=
  C6_onAfterContext (⟨[], [5], [⟨3, none, none, some false, none⟩], 0⟩ : St Nat) 5 5 [] rfl

/-- Number of registered bundles whose callbacks object is the one of id `i`. -/
def countId : List HookBundle → Nat → Nat
  | [], _ => 0
  | b :: rest, i => (if b.id = i then 1 else 0) + countId rest i

/-- Number of trace entries recording an invocation of the callbacks object
of id `i`. -/
def countFst : List (Nat × Nat) → Nat → Nat
  | [], _ => 0
  | e :: rest, i => (if e.1 = i then 1 else 0) + countFst rest i

theorem countId_append (h1 h2 : List HookBundle) (i : Nat) :
    countId (h1 ++ h2) i = countId h1 i + countId h2 i := by
  induction h1 with
  | nil => simp [countId]
  | cons b rest ih => simp [countId, ih]; omega

theorem countFst_append (t1 t2 : List (Nat × Nat)) (i : Nat) :
    countFst (t1 ++ t2) i = countFst t1 i + countFst t2 i := by
  induction t1 with
  | nil => simp [countFst]
  | cons e rest ih => simp [countFst, ih]; omega

theorem removeFirstById_of_countZero (hooks : List HookBundle) (i : Nat)
    (h : countId hooks i = 0) : removeFirstById i hooks = hooks := by
  induction hooks with
  | nil => rfl
  | cons b rest ih =>
    simp only [countId] at h
    have hb : b.id ≠ i := by intro he; simp [he] at h
    have hr : countId rest i = 0 := by omega
    simp [removeFirstById, hb, ih hr]

theorem countId_removeFirstById (hooks : List HookBundle) (i : Nat) :
    countId (removeFirstById i hooks) i = countId hooks i - 1 := by
  induction hooks with
  | nil => rfl
  | cons b rest ih =>
    by_cases hb : b.id = i
    · simp [removeFirstById, countId, hb]
    · simp [removeFirstById, countId, hb, ih]

theorem removeFirstById_append_left_zero (h1 h2 : List HookBundle) (i : Nat)
    (h : countId h1 i = 0) :
    removeFirstById i (h1 ++ h2) = h1 ++ removeFirstById i h2 := by
  induction h1 with
  | nil => rfl
  | cons b rest ih =>
    simp only [countId] at h
    have hb : b.id ≠ i := by intro he; simp [he] at h
    have hr : countId rest i = 0 := by omega
    simp [removeFirstById, hb, ih hr]

theorem trace_countFst_zero (sel : HookBundle → Option Bool) (c i : Nat)
    (hooks : List HookBundle) (hz : countId hooks i = 0) :
    countFst (hooks.filterMap (fun b => (sel b).map (fun _ => (b.id, c)))) i = 0 := by
  induction hooks with
  | nil => rfl
  | cons b rest ih =>
    simp only [countId] at hz
    have hb : b.id ≠ i := by intro he; simp [he] at hz
    have hr : countId rest i = 0 := by omega
    cases hsel : sel b with
    | none => simpa [hsel] using ih hr
    | some thr => simpa [hsel, countFst, hb] using ih hr

/-- C8: unregistering a hook bundle is idempotent: disabling a bundle that
is not (or no longer) registered leaves the whole state unchanged, and
when the bundle was registered at most once, a second disable after the
first is a no-op.  All subsequent dispatch behaviour is a function of the
state, hence also identical. -/
theorem C8_disable_idempotent (st : St V) (b : HookBundle)
    (h : countId st.asyncHookCallbacks b.id ≤ 1) :
    (countId st.asyncHookCallbacks b.id = 0 → disableHook st b = st) ∧
    disableHook (disableHook st b) b = disableHook st b := by
  constructor
  · intro h0
    simp [disableHook, removeFirstById_of_countZero _ _ h0]
  · have h2 : countId (removeFirstById b.id st.asyncHookCallbacks) b.id = 0 := by
      rw [countId_removeFirstById]; omega
    simp [disableHook, removeFirstById_of_countZero _ _ h2]

/-- Witness for C8 at a concrete input: disabling a never-registered bundle
on the bootstrap state. -/
theorem C8_disable_idempotent_witness :
    (countId (initSt Nat).asyncHookCallbacks 3 = 0 →
      disableHook (initSt Nat) ⟨3, none, none, none, none⟩ = initSt Nat) ∧
    disableHook (disableHook (initSt Nat) ⟨3, none, none, none, none⟩)
        ⟨3, none, none, none, none⟩
      = disableHook (initSt Nat) ⟨3, none, none, none, none⟩ :=
  C8_disable_idempotent (initSt Nat) ⟨3, none, none, none, none⟩ (by decide)

/-- C10: enabling the same AsyncHook twice appends its callbacks object to
the registry twice, so in any lifecycle phase it implements (and with no
registered callback throwing) it is invoked twice per notification; one
subsequent disable removes only the first occurrence, leaving the second
registered and still dispatching once per notification. -/
theorem C10_enable_twice (st : St V) (b : HookBundle)
    (h0 : countId st.asyncHookCallbacks b.id = 0) :
    countId (enableHook (enableHook st b) b).asyncHookCallbacks b.id = 2 ∧
    disableHook (enableHook (enableHook st b) b) b = enableHook st b ∧
    countId (disableHook (enableHook (enableHook st b) b) b).asyncHookCallbacks b.id = 1 ∧
    (∀ sel : HookBundle → Option Bool, ∀ c : Nat,
      (∀ h' ∈ (enableHook (enableHook st b) b).asyncHookCallbacks, sel h' ≠ some true) →
      sel b ≠ none →
      countFst (dispatchHooks sel c
        (enableHook (enableHook st b) b).asyncHookCallbacks).1 b.id = 2) ∧
    (∀ sel : HookBundle → Option Bool, ∀ c : Nat,
      (∀ h' ∈ (enableHook st b).asyncHookCallbacks, sel h' ≠ some true) →
      sel b ≠ none →
      countFst (dispatchHooks sel c
        (disableHook (enableHook (enableHook st b) b) b).asyncHookCallbacks).1 b.id = 1) := by
  have hreg : (enableHook (enableHook st b) b).asyncHookCallbacks
      = st.asyncHookCallbacks ++ [b, b] := by
    simp [enableHook]
  have hrem : disableHook (enableHook (enableHook st b) b) b = enableHook st b := by
    have h1 : removeFirstById b.id (st.asyncHookCallbacks ++ [b, b])
        = st.asyncHookCallbacks ++ [b] := by
      rw [removeFirstById_append_left_zero _ _ _ h0]
      simp [removeFirstById]
    simp [disableHook, enableHook, h1]
  refine ⟨?_, hrem, ?_, ?_, ?_⟩
  · rw [hreg, countId_append, h0]
    simp [countId]
  · rw [hrem]
    simp [enableHook, countId_append, h0, countId]
  · intro sel c hben hne
    have hselb : sel b = some false := by
      have := hben b (by simp [hreg])
      cases hsel : sel b with
      | none => exact absurd hsel hne
      | some thr => cases thr with
        | false => rfl
        | true => exact absurd hsel (this)
    rw [hreg] at hben ⊢
    rw [dispatchHooks_trace _ _ _ hben, List.filterMap_append, countFst_append,
      trace_countFst_zero _ _ _ _ h0]
    simp [hselb, countFst]
  · intro sel c hben hne
    have hselb : sel b = some false := by
      have := hben b (by simp [enableHook])
      cases hsel : sel b with
      | none => exact absurd hsel hne
      | some thr => cases thr with
        | false => rfl
        | true => exact absurd hsel (this)
    rw [hrem]
    have hben' : ∀ h' ∈ (enableHook st b).asyncHookCallbacks, sel h' ≠ some true := hben
    have hreg1 : (enableHook st b).asyncHookCallbacks = st.asyncHookCallbacks ++ [b] := rfl
    rw [hreg1] at hben' ⊢
    rw [dispatchHooks_trace _ _ _ hben', List.filterMap_append, countFst_append,
      trace_countFst_zero _ _ _ _ h0]
    simp [hselb, countFst]

/-- Witness for C10 at a concrete input: a bundle enabled twice on the
bootstrap state, observed through the before phase. -/
theorem C10_enable_twice_witness :
    countId (enableHook (enableHook (initSt Nat)
        ⟨3, some false, some false, some false, some false⟩)
        ⟨3, some false, some false, some false, some false⟩).asyncHookCallbacks 3 = 2 ∧
    disableHook (enableHook (enableHook (initSt Nat)
          ⟨3, some false, some false, some false, some false⟩)
          ⟨3, some false, some false, some false, some false⟩)
        ⟨3, some false, some false, some false, some false⟩
      = enableHook (initSt Nat) ⟨3, some false, some false, some false, some false⟩ ∧
    countFst (dispatchHooks (fun h' => h'.before) 0
      (enableHook (enableHook (initSt Nat)
          ⟨3, some false, some false, some false, some false⟩)
          ⟨3, some false, some false, some false, some false⟩).asyncHookCallbacks).1 3 = 2 ∧
    countFst (dispatchHooks (fun h' => h'.before) 0
      (disableHook (enableHook (enableHook (initSt Nat)
            ⟨3, some false, some false, some false, some false⟩)
            ⟨3, some false, some false, some false, some false⟩)
          ⟨3, some false, some false, some false, some false⟩).asyncHookCallbacks).1 3 = 1 :=
  ⟨(C10_enable_twice (initSt Nat) _ (by decide)).1,
   (C10_enable_twice (initSt Nat) _ (by decide)).2.1,
   (C10_enable_twice (initSt Nat) _ (by decide)).2.2.2.1 (fun h' => h'.before) 0
     (by decide) (by decide),
   (C10_enable_twice (initSt Nat) _ (by decide)).2.2.2.2 (fun h' => h'.before) 0
     (by decide) (by decide)⟩

/-- C4: the setter writes only into the current (top-of-stack) context's
locals store: every other context's data is untouched, other keys of the
current frame are untouched, the current frame's parent link is untouched,
and neither the stack nor the registry changes.  (Cross-contamination
between sibling frames is therefore impossible: a sibling is a different
context and keeps its data verbatim.) -/
theorem C4_set_only_current_frame (st : St V) (c l : Nat) (v : V)
    (hc : currentCtx st = some c) :
    (∀ d, d ≠ c → lookupCtx (setLocalValue st l v) d = lookupCtx st d) ∧
    ctxLocalGet (setLocalValue st l v) c l = some v ∧
    (∀ k, k ≠ l → ctxLocalGet (setLocalValue st l v) c k = ctxLocalGet st c k) ∧
    parentOfSt (setLocalValue st l v) c = parentOfSt st c ∧
    (setLocalValue st l v).contextStack = st.contextStack ∧
    (setLocalValue st l v).asyncHookCallbacks = st.asyncHookCallbacks := by
  have hset : setLocalValue st l v =
      { st with contexts := assocUpdate emptyCtx (setLocalFun l v) st.contexts c } := by
    simp [setLocalValue, hc]
  refine ⟨?_, ?_, ?_, ?_, setLocalValue_contextStack st l v, setLocalValue_hooks st l v⟩
  · intro d hd
    rw [hset]
    exact assocGet_update_other _ _ _ _ _ hd
  · rw [hset]
    simp only [ctxLocalGet, localsOf, ctxOf, lookupCtx]
    rw [assocGet_update_self]
    simp [assocGet_set_self, setLocalFun]
  · intro k hk
    rw [hset]
    simp only [ctxLocalGet, localsOf, ctxOf, lookupCtx]
    rw [assocGet_update_self]
    simp only [Option.getD_some, setLocalFun]
    rw [assocGet_set_other _ _ _ _ hk]
  · rw [hset]
    simp only [parentOfSt, ctxOf, lookupCtx]
    rw [assocGet_update_self]
    cases assocGet st.contexts c <;> simp [emptyCtx, setLocalFun]

/-- Witness for C4 at a concrete input: a set on the bootstrap state's root
frame, checked against a sibling id. -/
theorem C4_set_only_current_frame_witness :
    (∀ d, d ≠ 0 →
      lookupCtx (setLocalValue (initSt Nat) 4 9) d = lookupCtx (initSt Nat) d) ∧
    ctxLocalGet (setLocalValue (initSt Nat) 4 9) 0 4 = some 9 ∧
    (∀ k, k ≠ 4 →
      ctxLocalGet (setLocalValue (initSt Nat) 4 9) 0 k = ctxLocalGet (initSt Nat) 0 k) ∧
    parentOfSt (setLocalValue (initSt Nat) 4 9) 0 = parentOfSt (initSt Nat) 0 ∧
    (setLocalValue (initSt Nat) 4 9).contextStack = (initSt Nat).contextStack ∧
    (setLocalValue (initSt Nat) 4 9).asyncHookCallbacks
      = (initSt Nat).asyncHookCallbacks :=
  C4_set_only_current_frame (initSt Nat) 0 4 9 rfl

/-- C9: shadowing is decided by binding presence, not by the bound value:
whenever the current frame's locals store contains an entry for `l`, the
getter returns that entry's value, whatever it is (a modelled `undefined`
or a value equal to the initial one included) and whatever the ancestors
bind, for every initial value `v0`. -/
theorem C9_presence_shadows (st : St V) (c l : Nat) (w : V) (v0 : V)
    (hc : currentCtx st = some c) (hw : ctxLocalGet st c l = some w)
    (hfuel : 0 < st.nextCtx) :
    getValue st l v0 = w := by
  show getValueFrom st l v0 st.nextCtx (currentCtx st) = w
  obtain ⟨n, hn⟩ : ∃ n, st.nextCtx = n + 1 := ⟨st.nextCtx - 1, by omega⟩
  rw [hc, hn]
  simp [getValueFrom, hw]

/-- Witness for C9 at a concrete input: a child frame explicitly bound to
the modelled `undefined` (`none : Option Nat`) hides both the ancestor's
binding `some 7` and the initial value `some 9`. -/
theorem C9_presence_shadows_witness :
    currentCtx (⟨[(1, ⟨some 0, some [(5, none)]⟩), (0, ⟨none, some [(5, some 7)]⟩)],
        [1, 0], [], 2⟩ : St (Option Nat)) = some 1 ∧
    ctxLocalGet (⟨[(1, ⟨some 0, some [(5, none)]⟩), (0, ⟨none, some [(5, some 7)]⟩)],
        [1, 0], [], 2⟩ : St (Option Nat)) 1 5 = some none ∧
    getValue (⟨[(1, ⟨some 0, some [(5, none)]⟩), (0, ⟨none, some [(5, some 7)]⟩)],
        [1, 0], [], 2⟩ : St (Option Nat)) 5 (some 9) = none :=
  ⟨rfl, by decide,
    C9_presence_shadows _ 1 5 none (some 9) rfl (by decide) (by decide)⟩

/-- The parent chain starting at an optional context, totalised by fuel
like the getter's walk. -/
def chainFrom (st : St V) : Nat → Option Nat → List Nat
  | _, none => []
  | 0, some _ => []
  | fuel + 1, some c => c :: chainFrom st fuel (parentOfSt st c)

/-- The value of the first context along a chain whose locals store binds
`l`, defaulting to `v0` when none does. -/
def resolveChain (st : St V) (l : Nat) (v0 : V) (ch : List Nat) : V :=
  match ch.find? (fun d => (ctxLocalGet st d l).isSome) with
  | some d => (ctxLocalGet st d l).getD v0
  | none => v0

/-- Every stored parent link points to an earlier-allocated (smaller)
context id; this holds in every state reachable through the public
interface that never re-wraps an existing context object, and makes every
parent chain finite. -/
def ParentsDecreasing (st : St V) : Prop :=
  ∀ c p, parentOfSt st c = some p → p < c

/-- Executable check of `ParentsDecreasing` on the context table. -/
def parentsDecreasingB (st : St V) : Bool :=
  st.contexts.all (fun e =>
    match e.2.parent with
    | none => true
    | some p => decide (p < e.1))

theorem assocGet_mem {m : List (Nat × A)} {k : Nat} {d : A}
    (h : assocGet m k = some d) : (k, d) ∈ m := by
  induction m with
  | nil => simp [assocGet] at h
  | cons e rest ih =>
    obtain ⟨e1, e2⟩ := e
    by_cases he : e1 = k
    · subst he
      simp [assocGet] at h
      subst h
      exact List.mem_cons_self _ _
    · simp only [assocGet, he, if_neg, not_false_iff] at h
      exact List.mem_cons_of_mem _ (ih h)

theorem parentsDecreasing_of_b (st : St V) (h : parentsDecreasingB st = true) :
    ParentsDecreasing st := by
  intro c p hp
  simp only [parentOfSt, ctxOf, lookupCtx] at hp
  cases hg : assocGet st.contexts c with
  | none => rw [hg] at hp; simp [emptyCtx] at hp
  | some d =>
    rw [hg] at hp
    simp only [Option.getD_some] at hp
    have hmem := assocGet_mem hg
    have := (List.all_eq_true.mp h) _ hmem
    simp only [hp] at this
    exact of_decide_eq_true this

theorem getValueFrom_eq_resolveChain (st : St V) (l : Nat) (v0 : V) :
    ∀ (fuel : Nat) (oc : Option Nat),
      getValueFrom st l v0 fuel oc = resolveChain st l v0 (chainFrom st fuel oc) := by
  intro fuel
  induction fuel with
  | zero =>
    intro oc
    cases oc <;> rfl
  | succ n ih =>
    intro oc
    cases oc with
    | none => rfl
    | some c =>
      have hch : chainFrom st (n + 1) (some c)
          = c :: chainFrom st n (parentOfSt st c) := rfl
      cases h : ctxLocalGet st c l with
      | some x =>
        rw [hch]
        simp [getValueFrom, resolveChain, List.find?, h]
      | none =>
        have hgv : getValueFrom st l v0 (n + 1) (some c)
            = getValueFrom st l v0 n (parentOfSt st c) := by
          simp [getValueFrom, h]
        rw [hch, hgv, ih]
        simp [resolveChain, List.find?, h]

/-- C1: the getter returns the value bound in the nearest context along the
current context's parent chain whose locals store has an entry for `l`, and
the initial value when no context along the chain has one.  In particular a
child frame with no binding of its own reads its parent's bound value, and
a grandchild with no binding of its own (below a parent with none either)
reads its grandparent's bound value. -/
theorem C1_get_nearest_binding (st : St V) (c l : Nat) (v0 : V)
    (hpd : ParentsDecreasing st) (hc : currentCtx st = some c)
    (hb : c < st.nextCtx) :
    getValue st l v0 = resolveChain st l v0 (chainFrom st st.nextCtx (some c)) ∧
    (∀ p x, ctxLocalGet st c l = none → parentOfSt st c = some p →
      ctxLocalGet st p l = some x → getValue st l v0 = x) ∧
    (∀ p gp x, ctxLocalGet st c l = none → parentOfSt st c = some p →
      ctxLocalGet st p l = none → parentOfSt st p = some gp →
      ctxLocalGet st gp l = some x → getValue st l v0 = x) ∧
    ((∀ d ∈ chainFrom st st.nextCtx (some c), ctxLocalGet st d l = none) →
      getValue st l v0 = v0) := by
  have hgv : getValue st l v0 = getValueFrom st l v0 st.nextCtx (some c) := by
    show getValueFrom st l v0 st.nextCtx (currentCtx st) = _
    rw [hc]
  refine ⟨?_, ?_, ?_, ?_⟩
  · rw [hgv, getValueFrom_eq_resolveChain]
  · intro p x hnc hp hx
    have hplt : p < c := hpd c p hp
    obtain ⟨n, hn⟩ : ∃ n, st.nextCtx = n + 1 := ⟨st.nextCtx - 1, by omega⟩
    have hcn : c ≤ n := by omega
    obtain ⟨m, hm⟩ : ∃ m, n = m + 1 := ⟨n - 1, by omega⟩
    rw [hgv, hn, hm]
    simp [getValueFrom, hnc, hp, hx]
  · intro p gp x hnc hp hnp hgp hx
    have hplt : p < c := hpd c p hp
    have hgplt : gp < p := hpd p gp hgp
    obtain ⟨n, hn⟩ : ∃ n, st.nextCtx = n + 1 := ⟨st.nextCtx - 1, by omega⟩
    have hcn : c ≤ n := by omega
    obtain ⟨m, hm⟩ : ∃ m, n = m + 1 := ⟨n - 1, by omega⟩
    obtain ⟨m', hm'⟩ : ∃ m', m = m' + 1 := ⟨m - 1, by omega⟩
    rw [hgv, hn, hm, hm']
    simp [getValueFrom, hnc, hp, hnp, hgp, hx]
  · intro hall
    rw [hgv, getValueFrom_eq_resolveChain]
    have hnone : (chainFrom st st.nextCtx (some c)).find?
        (fun d => (ctxLocalGet st d l).isSome) = none := by
      rw [List.find?_eq_none]
      intro d hd
      simp [hall d hd]
    simp only [resolveChain, hnone]

/-- Witness for C1 at a concrete input: a grandchild chain 2 → 1 → 0 where
only the root binds the AsyncLocal, so the grandchild reads the root's 7. -/
theorem C1_get_nearest_binding_witness :
    let stW : St Nat := ⟨[(2, ⟨some 1, none⟩), (1, ⟨some 0, none⟩),
      (0, ⟨none, some [(5, 7)]⟩)], [2, 1, 0], [], 3⟩
    ParentsDecreasing stW ∧ currentCtx stW = some 2 ∧ 2 < stW.nextCtx ∧
      getValue stW 5 0 = 7 := by
  intro stW
  refine ⟨parentsDecreasing_of_b _ (by decide), rfl, by decide, ?_⟩
  exact (C1_get_nearest_binding stW 2 5 0 (parentsDecreasing_of_b _ (by decide)) rfl
    (by decide)).2.2.1 1 0 7 (by decide) (by decide) (by decide) (by decide) (by decide)

theorem setLocalValue_get_self (st : St V) (c l : Nat) (v : V)
    (hc : currentCtx st = some c) :
    ctxLocalGet (setLocalValue st l v) c l = some v := by
  have hset : setLocalValue st l v =
      { st with contexts := assocUpdate emptyCtx (setLocalFun l v) st.contexts c } := by
    simp [setLocalValue, hc]
  rw [hset]
  simp only [ctxLocalGet, localsOf, ctxOf, lookupCtx]
  rw [assocGet_update_self]
  simp [assocGet_set_self, setLocalFun]

theorem runInScope_result (c : Nat) (f : St V → St V × Except Nat A) (st : St V)
    (hbok : (dispatchHooks (fun b => b.before) c st.asyncHookCallbacks).2
      = Except.ok ())
    (haok : (dispatchHooks (fun b => b.after) c
        (f { st with contextStack := c :: st.contextStack }).1.asyncHookCallbacks).2
      = Except.ok ()) :
    (runInScope c f st).2 = (f { st with contextStack := c :: st.contextStack }).2 ∧
    (runInScope c f st).1 =
      (onAfterContext (f { st with contextStack := c :: st.contextStack }).1 c).1 := by
  have hb : (onBeforeContext st c).2.2 = Except.ok () := by
    rw [onBeforeContext_exc]; exact hbok
  have hfst : (onBeforeContext st c).1
      = { st with contextStack := c :: st.contextStack } := onBeforeContext_fst st c
  have ha : (onAfterContext (f { st with contextStack := c :: st.contextStack }).1 c).2.2
      = Except.ok () := by
    rw [onAfterContext_exc]; exact haok
  simp only [runInScope, hb, hfst, ha]
  exact ⟨by trivial, by trivial⟩

/-- C3: `withValue(value, callback, args)` creates one fresh child context
whose parent is the context current at the call, bumps the allocator by
exactly one, pushes the child, binds the AsyncLocal to `value` in that
child frame, invokes the callback synchronously on that intermediate state,
pops the frame regardless of the callback's outcome, and propagates the
callback's result or failure unchanged.  (The registered hooks are assumed
not to throw, and the arbitrary callback is assumed to restore the stack
and to leave the registry alone, as every nested use of the public
operations does.) -/
theorem C3_withValue_core (st : St V) (l : Nat) (v : V)
    (f : St V → St V × Except Nat A)
    (hs : HooksSafe st)
    (hfS : ∀ s, (f s).1.contextStack = s.contextStack)
    (hfH : ∀ s, (f s).1.asyncHookCallbacks = s.asyncHookCallbacks) :
    parentOfSt ((newAsyncContext st).1.1) st.nextCtx = currentCtx st ∧
    ((newAsyncContext st).1.1).nextCtx = st.nextCtx + 1 ∧
    currentCtx (setLocalValue
        (onBeforeContext ((newAsyncContext st).1.1) st.nextCtx).1 l v)
      = some st.nextCtx ∧
    ctxLocalGet (setLocalValue
        (onBeforeContext ((newAsyncContext st).1.1) st.nextCtx).1 l v)
      st.nextCtx l = some v ∧
    (setLocalValue (onBeforeContext ((newAsyncContext st).1.1) st.nextCtx).1 l v).contextStack
      = st.nextCtx :: st.contextStack ∧
    (withValue l v f st).2
      = (f (setLocalValue
          (onBeforeContext ((newAsyncContext st).1.1) st.nextCtx).1 l v)).2 ∧
    (withValue l v f st).1.contextStack = st.contextStack := by
  have hinit : (newAsyncContext st).2.2 = Except.ok () := by
    rw [newAsyncContext_exc]
    exact dispatchHooks_ok _ _ _ (fun b hb => (hs b hb).1)
  have hmidfst : (onBeforeContext ((newAsyncContext st).1.1) st.nextCtx).1
      = { (newAsyncContext st).1.1 with
          contextStack := st.nextCtx :: ((newAsyncContext st).1.1).contextStack } :=
    onBeforeContext_fst _ _
  have hcur0 : currentCtx (onBeforeContext ((newAsyncContext st).1.1) st.nextCtx).1
      = some st.nextCtx := by
    rw [hmidfst]; rfl
  have hmidstack : (setLocalValue
      (onBeforeContext ((newAsyncContext st).1.1) st.nextCtx).1 l v).contextStack
      = st.nextCtx :: st.contextStack := by
    rw [setLocalValue_contextStack, hmidfst]
    simp [newAsyncContext_contextStack]
  have hmidhooks : (setLocalValue
      (onBeforeContext ((newAsyncContext st).1.1) st.nextCtx).1 l v).asyncHookCallbacks
      = st.asyncHookCallbacks := by
    rw [setLocalValue_hooks, hmidfst]
    simp [newAsyncContext_hooks]
  have hbok : (dispatchHooks (fun b => b.before) st.nextCtx
      ((newAsyncContext st).1.1).asyncHookCallbacks).2 = Except.ok () := by
    rw [newAsyncContext_hooks]
    exact dispatchHooks_ok _ _ _ (fun b hb => (hs b hb).2.1)
  have hg : (fun s => f (setLocalValue s l v))
      ((onBeforeContext ((newAsyncContext st).1.1) st.nextCtx).1)
      = f (setLocalValue (onBeforeContext ((newAsyncContext st).1.1) st.nextCtx).1 l v) :=
    rfl
  have haok : (dispatchHooks (fun b => b.after) st.nextCtx
      ((fun s => f (setLocalValue s l v))
        { (newAsyncContext st).1.1 with
          contextStack := st.nextCtx :: ((newAsyncContext st).1.1).contextStack }).1.asyncHookCallbacks).2
      = Except.ok () := by
    rw [← hmidfst, hg, hfH, hmidhooks]
    exact dispatchHooks_ok _ _ _ (fun b hb => (hs b hb).2.2)
  have hrun := runInScope_result st.nextCtx (fun s => f (setLocalValue s l v))
    ((newAsyncContext st).1.1) hbok haok
  have hwv2 : (withValue l v f st).2
      = (f (setLocalValue (onBeforeContext ((newAsyncContext st).1.1) st.nextCtx).1 l v)).2 := by
    simp only [withValue, hinit, newAsyncContext_id]
    rw [hrun.1, ← hmidfst, hg]
  have hwv1 : (withValue l v f st).1.contextStack = st.contextStack := by
    simp only [withValue, hinit, newAsyncContext_id]
    rw [hrun.2, ← hmidfst, hg]
    have hfstack : (f (setLocalValue
        (onBeforeContext ((newAsyncContext st).1.1) st.nextCtx).1 l v)).1.contextStack
        = st.nextCtx :: st.contextStack := by
      rw [hfS, hmidstack]
    rw [onAfterContext_stack_cons _ st.nextCtx st.nextCtx st.contextStack hfstack]
    simp
  have hcur1 : currentCtx (setLocalValue
      (onBeforeContext ((newAsyncContext st).1.1) st.nextCtx).1 l v)
      = some st.nextCtx := by
    show (setLocalValue _ l v).contextStack.head? = some st.nextCtx
    rw [setLocalValue_contextStack]
    exact hcur0
  exact ⟨newAsyncContext_parent st, newAsyncContext_nextCtx st, hcur1,
    setLocalValue_get_self _ _ _ _ hcur0, hmidstack, hwv2, hwv1⟩

/-- Witness for C3 at a concrete input: a callback that raises identity 3
from inside the scope; the failure is re-raised unchanged and the stack is
restored. -/
theorem C3_withValue_core_witness :
    HooksSafe (initSt Nat) ∧
    (withValue 2 9 (fun s => (s, (Except.error 3 : Except Nat Unit))) (initSt Nat)).2
      = Except.error 3 ∧
    (withValue 2 9 (fun s => (s, (Except.error 3 : Except Nat Unit))) (initSt Nat)).1.contextStack
      = (initSt Nat).contextStack :=
  ⟨by decide,
   (C3_withValue_core (initSt Nat) 2 9
     (fun s => (s, (Except.error 3 : Except Nat Unit))) (by decide)
     (fun s => rfl) (fun s => rfl)).2.2.2.2.2.1,
   (C3_withValue_core (initSt Nat) 2 9
     (fun s => (s, (Except.error 3 : Except Nat Unit))) (by decide)
     (fun s => rfl) (fun s => rfl)).2.2.2.2.2.2⟩

/-- C7 as stated is false on the code: constructing an AsyncContext wrapper
around an already existing context object (the public one-argument
constructor form) re-runs `onInitContext` on that object and overwrites its
stored parent with the then-current context; doing so inside the context's
own scope even creates a self-parent cycle.  Context 1 is created with
parent 0 and, after the wrapper construction inside `runInScope` on itself,
stores parent 1. -/
theorem C7_reparenting_counterexample :
    parentOfSt ((newAsyncContext (initSt Nat)).1.1) 1 = some 0 ∧
    parentOfSt (runInScope 1
        (fun s => ((newAsyncContextOn s 1).1, (Except.ok () : Except Nat Unit)))
        ((newAsyncContext (initSt Nat)).1.1)).1 1 = some 1 := by
  decide

/-- Context ids on which a call sequence invokes `runInScope` directly
(through a previously obtained wrapper). -/
def runOnIds : Prog V → List Nat
  | Prog.seq p q => runOnIds p ++ runOnIds q
  | Prog.withV _ _ p => runOnIds p
  | Prog.inNew p => runOnIds p
  | Prog.runOn c p => c :: runOnIds p
  | _ => []

/-- Every wrapper a call sequence re-enters holds a context that is already
allocated in the starting state. -/
def ProgOk (st : St V) (p : Prog V) : Prop :=
  ∀ c ∈ runOnIds p, c < st.nextCtx ∧ (lookupCtx st c).isSome = true

/-- The reachable-state invariant of the context table: allocated ids are
below the allocation counter, stacked ids are allocated and in bounds,
parent links point strictly downwards (hence parent chains are acyclic and
finite) and point to allocated contexts. -/
def Inv (st : St V) : Prop :=
  (∀ e ∈ st.contexts, e.1 < st.nextCtx) ∧
  (∀ t ∈ st.contextStack, t < st.nextCtx) ∧
  (∀ t ∈ st.contextStack, (lookupCtx st t).isSome = true) ∧
  ParentsDecreasing st ∧
  (∀ c p, parentOfSt st c = some p → (lookupCtx st p).isSome = true)

theorem mem_assocUpdate {m : List (Nat × A)} {dflt : A} {g : A → A} {k : Nat}
    {e : Nat × A} (h : e ∈ assocUpdate dflt g m k) : e.1 = k ∨ e ∈ m := by
  induction m with
  | nil =>
    simp [assocUpdate] at h
    left; rw [h]
  | cons e' rest ih =>
    by_cases he : e'.1 = k
    · simp only [assocUpdate, he, if_pos, List.mem_cons] at h
      rcases h with h | h
      · left; rw [h]
      · right; exact List.mem_cons_of_mem _ h
    · simp only [assocUpdate, he, if_neg, not_false_iff, List.mem_cons] at h
      rcases h with h | h
      · right; rw [h]; exact List.mem_cons_self _ _
      · rcases ih h with h2 | h2
        · left; exact h2
        · right; exact List.mem_cons_of_mem _ h2

theorem assocGet_update_isSome {m : List (Nat × A)} {dflt : A} {g : A → A} {k d : Nat}
    (h : (assocGet m d).isSome = true) :
    (assocGet (assocUpdate dflt g m k) d).isSome = true := by
  by_cases hd : d = k
  · subst hd; rw [assocGet_update_self]; rfl
  · rw [assocGet_update_other _ _ _ _ _ hd]; exact h

theorem parentOfSt_congr {st st' : St V} (h : st'.contexts = st.contexts) (d : Nat) :
    parentOfSt st' d = parentOfSt st d := by
  simp [parentOfSt, ctxOf, lookupCtx, h]

theorem lookupCtx_congr {st st' : St V} (h : st'.contexts = st.contexts) (d : Nat) :
    lookupCtx st' d = lookupCtx st d := by
  simp [lookupCtx, h]

theorem parentOfSt_setLocalValue (st : St V) (l : Nat) (v : V) (d : Nat) :
    parentOfSt (setLocalValue st l v) d = parentOfSt st d := by
  cases hc : currentCtx st with
  | none => simp [setLocalValue, hc]
  | some t =>
    simp only [setLocalValue, hc, parentOfSt, ctxOf, lookupCtx]
    by_cases hd : d = t
    · subst hd
      rw [assocGet_update_self]
      cases assocGet st.contexts d <;> simp [emptyCtx, setLocalFun]
    · rw [assocGet_update_other _ _ _ _ _ hd]

theorem lookupCtx_setLocalValue_isSome (st : St V) (l : Nat) (v : V) (d : Nat)
    (h : (lookupCtx st d).isSome = true) :
    (lookupCtx (setLocalValue st l v) d).isSome = true := by
  cases hc : currentCtx st with
  | none => simpa [setLocalValue, hc] using h
  | some t =>
    simp only [setLocalValue, hc, lookupCtx]
    exact assocGet_update_isSome h

theorem lookupCtx_newAsyncContext_self (st : St V) :
    lookupCtx ((newAsyncContext st).1.1) st.nextCtx
      = some ⟨currentCtx st, none⟩ := by
  simp [newAsyncContext, onInitContext, lookupCtx, setParent, assocUpdate, assocGet,
    currentCtx, emptyCtx]

theorem lookupCtx_newAsyncContext_other (st : St V) (d : Nat) (hd : d ≠ st.nextCtx) :
    lookupCtx ((newAsyncContext st).1.1) d = lookupCtx st d := by
  show assocGet _ d = assocGet st.contexts d
  have h1 : ((newAsyncContext st).1.1).contexts
      = assocUpdate emptyCtx (fun dd => ⟨currentCtx st, dd.locals⟩)
          ((st.nextCtx, emptyCtx) :: st.contexts) st.nextCtx := rfl
  rw [h1, assocGet_update_other _ _ _ _ _ hd]
  simp [assocGet, Ne.symm hd]

theorem parentOfSt_newAsyncContext_other (st : St V) (d : Nat) (hd : d ≠ st.nextCtx) :
    parentOfSt ((newAsyncContext st).1.1) d = parentOfSt st d := by
  simp [parentOfSt, ctxOf, lookupCtx_newAsyncContext_other st d hd]

theorem lookupCtx_newAsyncContext_isSome (st : St V) (d : Nat)
    (h : (lookupCtx st d).isSome = true) :
    (lookupCtx ((newAsyncContext st).1.1) d).isSome = true := by
  by_cases hd : d = st.nextCtx
  · subst hd; rw [lookupCtx_newAsyncContext_self]; rfl
  · rw [lookupCtx_newAsyncContext_other st d hd]; exact h

theorem runInScope_fst_cases (c : Nat) (f : St V → St V × Except Nat A) (st : St V) :
    (runInScope c f st).1 = { st with contextStack := c :: st.contextStack } ∨
    (runInScope c f st).1 =
      (onAfterContext (f { st with contextStack := c :: st.contextStack }).1 c).1 := by
  cases hb : (onBeforeContext st c).2.2 with
  | error e =>
    left
    simp only [runInScope, hb, onBeforeContext_fst]
  | ok u =>
    simp only [runInScope, hb]
    cases ha : (onAfterContext (f (onBeforeContext st c).1).1 c).2.2 with
    | error e => right; simp only [ha, onBeforeContext_fst]
    | ok u2 => right; simp only [ha, onBeforeContext_fst]

theorem runInScope_fst_cases_set (c l' : Nat) (v' : V) (p : Prog V) (st : St V) :
    (runInScope c (fun s => runP p (setLocalValue s l' v')) st).1
      = { st with contextStack := c :: st.contextStack } ∨
    (runInScope c (fun s => runP p (setLocalValue s l' v')) st).1
      = (onAfterContext (runP p (setLocalValue
          { st with contextStack := c :: st.contextStack } l' v')).1 c).1 :=
  runInScope_fst_cases c _ st

theorem runInScope_fst_cases_plain (c : Nat) (p : Prog V) (st : St V) :
    (runInScope c (fun s => runP p s) st).1
      = { st with contextStack := c :: st.contextStack } ∨
    (runInScope c (fun s => runP p s) st).1
      = (onAfterContext (runP p { st with contextStack := c :: st.contextStack }).1 c).1 :=
  runInScope_fst_cases c _ st

theorem runP_nextCtx_le (p : Prog V) (st : St V) :
    st.nextCtx ≤ (runP p st).1.nextCtx := by
  induction p generalizing st with
  | ret => exact le_refl _
  | raiseE e => exact le_refl _
  | seq p q ihp ihq =>
    simp only [runP]
    cases h : (runP p st).2 with
    | error e => exact ihp st
    | ok u => exact le_trans (ihp st) (ihq _)
  | setL l v => simp [runP, setLocalValue_nextCtx]
  | withV l v p ih =>
    simp only [runP, withValue]
    cases h : (newAsyncContext st).2.2 with
    | error e =>
      show st.nextCtx ≤ ((newAsyncContext st).1.1).nextCtx
      rw [newAsyncContext_nextCtx]; omega
    | ok u =>
      rcases runInScope_fst_cases_set (newAsyncContext st).1.2 l v p
        ((newAsyncContext st).1.1) with hcs | hcs
      · rw [hcs]
        show st.nextCtx ≤ ((newAsyncContext st).1.1).nextCtx
        rw [newAsyncContext_nextCtx]; omega
      · rw [hcs, onAfterContext_nextCtx]
        refine le_trans ?_ (ih _)
        rw [setLocalValue_nextCtx]
        show st.nextCtx ≤ ((newAsyncContext st).1.1).nextCtx
        rw [newAsyncContext_nextCtx]; omega
  | inNew p ih =>
    simp only [runP]
    cases h : (newAsyncContext st).2.2 with
    | error e =>
      show st.nextCtx ≤ ((newAsyncContext st).1.1).nextCtx
      rw [newAsyncContext_nextCtx]; omega
    | ok u =>
      rcases runInScope_fst_cases_plain (newAsyncContext st).1.2 p
        ((newAsyncContext st).1.1) with hcs | hcs
      · rw [hcs]
        show st.nextCtx ≤ ((newAsyncContext st).1.1).nextCtx
        rw [newAsyncContext_nextCtx]; omega
      · rw [hcs, onAfterContext_nextCtx]
        refine le_trans ?_ (ih _)
        show st.nextCtx ≤ ((newAsyncContext st).1.1).nextCtx
        rw [newAsyncContext_nextCtx]; omega
  | runOn c p ih =>
    simp only [runP]
    rcases runInScope_fst_cases_plain c p st with hcs | hcs
    · rw [hcs]
    · rw [hcs, onAfterContext_nextCtx]
      exact ih { st with contextStack := c :: st.contextStack }

theorem runP_parent_pres (p : Prog V) (st : St V) (c : Nat) (hc : c < st.nextCtx) :
    parentOfSt (runP p st).1 c = parentOfSt st c := by
  induction p generalizing st with
  | ret => rfl
  | raiseE e => rfl
  | seq p q ihp ihq =>
    simp only [runP]
    cases h : (runP p st).2 with
    | error e => exact ihp st hc
    | ok u =>
      rw [ihq _ (lt_of_lt_of_le hc (runP_nextCtx_le p st)), ihp st hc]
  | setL l v => simp [runP, parentOfSt_setLocalValue]
  | withV l v p ih =>
    simp only [runP, withValue]
    cases h : (newAsyncContext st).2.2 with
    | error e => exact parentOfSt_newAsyncContext_other st c (by omega)
    | ok u =>
      rcases runInScope_fst_cases_set (newAsyncContext st).1.2 l v p
        ((newAsyncContext st).1.1) with hcs | hcs
      · rw [hcs]
        have h1 : parentOfSt { (newAsyncContext st).1.1 with
            contextStack := (newAsyncContext st).1.2 ::
              ((newAsyncContext st).1.1).contextStack } c
            = parentOfSt ((newAsyncContext st).1.1) c := parentOfSt_congr rfl c
        rw [h1]
        exact parentOfSt_newAsyncContext_other st c (by omega)
      · rw [hcs]
        rw [parentOfSt_congr (onAfterContext_contexts _ _) c]
        have hlt2 : c < (setLocalValue { (newAsyncContext st).1.1 with
            contextStack := (newAsyncContext st).1.2 ::
              ((newAsyncContext st).1.1).contextStack } l v).nextCtx := by
          rw [setLocalValue_nextCtx]
          show c < ((newAsyncContext st).1.1).nextCtx
          rw [newAsyncContext_nextCtx]; omega
        rw [ih _ hlt2, parentOfSt_setLocalValue]
        have h1 : parentOfSt { (newAsyncContext st).1.1 with
            contextStack := (newAsyncContext st).1.2 ::
              ((newAsyncContext st).1.1).contextStack } c
            = parentOfSt ((newAsyncContext st).1.1) c := parentOfSt_congr rfl c
        rw [h1]
        exact parentOfSt_newAsyncContext_other st c (by omega)
  | inNew p ih =>
    simp only [runP]
    cases h : (newAsyncContext st).2.2 with
    | error e => exact parentOfSt_newAsyncContext_other st c (by omega)
    | ok u =>
      rcases runInScope_fst_cases_plain (newAsyncContext st).1.2 p
        ((newAsyncContext st).1.1) with hcs | hcs
      · rw [hcs]
        have h1 : parentOfSt { (newAsyncContext st).1.1 with
            contextStack := (newAsyncContext st).1.2 ::
              ((newAsyncContext st).1.1).contextStack } c
            = parentOfSt ((newAsyncContext st).1.1) c := parentOfSt_congr rfl c
        rw [h1]
        exact parentOfSt_newAsyncContext_other st c (by omega)
      · rw [hcs]
        rw [parentOfSt_congr (onAfterContext_contexts _ _) c]
        have hlt2 : c < ({ (newAsyncContext st).1.1 with
            contextStack := (newAsyncContext st).1.2 ::
              ((newAsyncContext st).1.1).contextStack } : St V).nextCtx := by
          show c < ((newAsyncContext st).1.1).nextCtx
          rw [newAsyncContext_nextCtx]; omega
        rw [ih _ hlt2]
        have h1 : parentOfSt { (newAsyncContext st).1.1 with
            contextStack := (newAsyncContext st).1.2 ::
              ((newAsyncContext st).1.1).contextStack } c
            = parentOfSt ((newAsyncContext st).1.1) c := parentOfSt_congr rfl c
        rw [h1]
        exact parentOfSt_newAsyncContext_other st c (by omega)
  | runOn c' p ih =>
    simp only [runP]
    rcases runInScope_fst_cases_plain c' p st with hcs | hcs
    · rw [hcs]
      exact parentOfSt_congr rfl c
    · rw [hcs]
      rw [parentOfSt_congr (onAfterContext_contexts _ _) c]
      have hlt2 : c < ({ st with contextStack := c' :: st.contextStack } : St V).nextCtx := hc
      rw [ih _ hlt2]
      exact parentOfSt_congr rfl c

theorem runP_alloc_mono (p : Prog V) (st : St V) (d : Nat)
    (h : (lookupCtx st d).isSome = true) :
    (lookupCtx (runP p st).1 d).isSome = true := by
  induction p generalizing st with
  | ret => exact h
  | raiseE e => exact h
  | seq p q ihp ihq =>
    simp only [runP]
    cases hr : (runP p st).2 with
    | error e => exact ihp st h
    | ok u => exact ihq _ (ihp st h)
  | setL l v =>
    simp only [runP]
    exact lookupCtx_setLocalValue_isSome st l v d h
  | withV l v p ih =>
    simp only [runP, withValue]
    cases hn : (newAsyncContext st).2.2 with
    | error e => exact lookupCtx_newAsyncContext_isSome st d h
    | ok u =>
      rcases runInScope_fst_cases_set (newAsyncContext st).1.2 l v p
        ((newAsyncContext st).1.1) with hcs | hcs
      · rw [hcs]
        rw [lookupCtx_congr rfl d]
        exact lookupCtx_newAsyncContext_isSome st d h
      · rw [hcs]
        rw [lookupCtx_congr (onAfterContext_contexts _ _) d]
        refine ih _ (lookupCtx_setLocalValue_isSome _ l v d ?_)
        rw [lookupCtx_congr rfl d]
        exact lookupCtx_newAsyncContext_isSome st d h
  | inNew p ih =>
    simp only [runP]
    cases hn : (newAsyncContext st).2.2 with
    | error e => exact lookupCtx_newAsyncContext_isSome st d h
    | ok u =>
      rcases runInScope_fst_cases_plain (newAsyncContext st).1.2 p
        ((newAsyncContext st).1.1) with hcs | hcs
      · rw [hcs]
        rw [lookupCtx_congr rfl d]
        exact lookupCtx_newAsyncContext_isSome st d h
      · rw [hcs]
        rw [lookupCtx_congr (onAfterContext_contexts _ _) d]
        refine ih _ ?_
        rw [lookupCtx_congr rfl d]
        exact lookupCtx_newAsyncContext_isSome st d h
  | runOn c' p ih =>
    simp only [runP]
    rcases runInScope_fst_cases_plain c' p st with hcs | hcs
    · rw [hcs]
      rw [lookupCtx_congr rfl d]
      exact h
    · rw [hcs]
      rw [lookupCtx_congr (onAfterContext_contexts _ _) d]
      refine ih _ ?_
      rw [lookupCtx_congr rfl d]
      exact h

theorem currentCtx_mem {st : St V} {t : Nat} (h : currentCtx st = some t) :
    t ∈ st.contextStack := by
  cases hs : st.contextStack with
  | nil => rw [currentCtx, hs] at h; cases h
  | cons a rest =>
    rw [currentCtx, hs] at h
    simp at h
    rw [h]
    exact List.mem_cons_self _ _

theorem inv_newAsyncContext (st : St V) (h : Inv st) : Inv ((newAsyncContext st).1.1) := by
  obtain ⟨h1, h2, h3, h4, h5⟩ := h
  have hctxs : ((newAsyncContext st).1.1).contexts
      = assocUpdate emptyCtx (fun dd => ⟨currentCtx st, dd.locals⟩)
          ((st.nextCtx, emptyCtx) :: st.contexts) st.nextCtx := rfl
  refine ⟨?_, ?_, ?_, ?_, ?_⟩
  · intro e he
    rw [hctxs] at he
    rw [newAsyncContext_nextCtx]
    rcases mem_assocUpdate he with h' | h'
    · omega
    · rcases List.mem_cons.mp h' with h'' | h''
      · rw [h'']; omega
      · have := h1 e h''; omega
  · intro t ht
    rw [newAsyncContext_contextStack] at ht
    rw [newAsyncContext_nextCtx]
    have := h2 t ht; omega
  · intro t ht
    rw [newAsyncContext_contextStack] at ht
    exact lookupCtx_newAsyncContext_isSome st t (h3 t ht)
  · intro c p hp
    by_cases hcn : c = st.nextCtx
    · subst hcn
      rw [newAsyncContext_parent st] at hp
      exact h2 p (currentCtx_mem hp)
    · rw [parentOfSt_newAsyncContext_other st c hcn] at hp
      exact h4 c p hp
  · intro c p hp
    by_cases hcn : c = st.nextCtx
    · subst hcn
      rw [newAsyncContext_parent st] at hp
      exact lookupCtx_newAsyncContext_isSome st p (h3 p (currentCtx_mem hp))
    · rw [parentOfSt_newAsyncContext_other st c hcn] at hp
      exact lookupCtx_newAsyncContext_isSome st p (h5 c p hp)

theorem inv_onBefore (st : St V) (c : Nat) (h : Inv st) (hlt : c < st.nextCtx)
    (hal : (lookupCtx st c).isSome = true) : Inv ((onBeforeContext st c).1) := by
  obtain ⟨h1, h2, h3, h4, h5⟩ := h
  rw [onBeforeContext_fst]
  refine ⟨h1, ?_, ?_, h4, h5⟩
  · intro t ht
    rcases List.mem_cons.mp ht with h' | h'
    · rw [h']; exact hlt
    · exact h2 t h'
  · intro t ht
    rcases List.mem_cons.mp ht with h' | h'
    · rw [h']; exact hal
    · exact h3 t h'

theorem inv_onAfter (st : St V) (c : Nat) (h : Inv st) : Inv ((onAfterContext st c).1) := by
  obtain ⟨h1, h2, h3, h4, h5⟩ := h
  have hsub : ∀ t ∈ ((onAfterContext st c).1).contextStack, t ∈ st.contextStack := by
    intro t ht
    cases hs : st.contextStack with
    | nil =>
      have hempty : (onAfterContext st c).1.contextStack = [] := by
        simp [onAfterContext, hs]
      rw [hempty] at ht; cases ht
    | cons a rest =>
      rw [onAfterContext_stack_cons st c a rest hs] at ht
      by_cases hac : a = c
      · rw [if_pos hac] at ht
        exact List.mem_cons_of_mem _ ht
      · rw [if_neg hac] at ht
        exact ht
  refine ⟨?_, ?_, ?_, ?_, ?_⟩
  · intro e he
    rw [onAfterContext_contexts] at he
    rw [onAfterContext_nextCtx]
    exact h1 e he
  · intro t ht
    rw [onAfterContext_nextCtx]
    exact h2 t (hsub t ht)
  · intro t ht
    rw [lookupCtx_congr (onAfterContext_contexts st c) t]
    exact h3 t (hsub t ht)
  · intro c' p hp
    rw [parentOfSt_congr (onAfterContext_contexts st c) c'] at hp
    exact h4 c' p hp
  · intro c' p hp
    rw [parentOfSt_congr (onAfterContext_contexts st c) c'] at hp
    rw [lookupCtx_congr (onAfterContext_contexts st c) p]
    exact h5 c' p hp

theorem inv_setLocalValue (st : St V) (l : Nat) (v : V) (h : Inv st) :
    Inv (setLocalValue st l v) := by
  obtain ⟨h1, h2, h3, h4, h5⟩ := h
  cases hc : currentCtx st with
  | none =>
    have hid : setLocalValue st l v = st := by simp [setLocalValue, hc]
    rw [hid]
    exact ⟨h1, h2, h3, h4, h5⟩
  | some t =>
    refine ⟨?_, ?_, ?_, ?_, ?_⟩
    · intro e he
      have hctx : (setLocalValue st l v).contexts
          = assocUpdate emptyCtx (setLocalFun l v) st.contexts t := by
        simp [setLocalValue, hc]
      rw [hctx] at he
      rw [setLocalValue_nextCtx]
      rcases mem_assocUpdate he with h' | h'
      · rw [h']; exact h2 t (currentCtx_mem hc)
      · exact h1 e h'
    · intro t' ht'
      rw [setLocalValue_contextStack] at ht'
      rw [setLocalValue_nextCtx]
      exact h2 t' ht'
    · intro t' ht'
      rw [setLocalValue_contextStack] at ht'
      exact lookupCtx_setLocalValue_isSome st l v t' (h3 t' ht')
    · intro c' p hp
      rw [parentOfSt_setLocalValue] at hp
      exact h4 c' p hp
    · intro c' p hp
      rw [parentOfSt_setLocalValue] at hp
      exact lookupCtx_setLocalValue_isSome st l v p (h5 c' p hp)

theorem progOk_mono {st st' : St V} (p : Prog V)
    (hn : st.nextCtx ≤ st'.nextCtx)
    (ha : ∀ d, (lookupCtx st d).isSome = true → (lookupCtx st' d).isSome = true)
    (h : ProgOk st p) : ProgOk st' p := by
  intro c hcmem
  obtain ⟨hb, hal⟩ := h c hcmem
  exact ⟨lt_of_lt_of_le hb hn, ha c hal⟩

theorem inv_runP (p : Prog V) (st : St V) (h : Inv st) (hok : ProgOk st p) :
    Inv (runP p st).1 := by
  induction p generalizing st with
  | ret => exact h
  | raiseE e => exact h
  | seq p q ihp ihq =>
    have hokp : ProgOk st p := fun c hc => hok c (by simp [runOnIds, hc])
    have hokq : ProgOk st q := fun c hc => hok c (by simp [runOnIds, hc])
    simp only [runP]
    cases hr : (runP p st).2 with
    | error e => exact ihp st h hokp
    | ok u =>
      exact ihq _ (ihp st h hokp)
        (progOk_mono q (runP_nextCtx_le p st)
          (fun d hd => runP_alloc_mono p st d hd) hokq)
  | setL l v =>
    simp only [runP]
    exact inv_setLocalValue st l v h
  | withV l v p ih =>
    have hokp : ProgOk st p := fun c hc => hok c (by simp [runOnIds, hc])
    simp only [runP, withValue]
    cases hn : (newAsyncContext st).2.2 with
    | error e => exact inv_newAsyncContext st h
    | ok u =>
      have hinv1 : Inv ((newAsyncContext st).1.1) := inv_newAsyncContext st h
      have hltc : (newAsyncContext st).1.2 < ((newAsyncContext st).1.1).nextCtx := by
        rw [newAsyncContext_id, newAsyncContext_nextCtx]; omega
      have halc : (lookupCtx ((newAsyncContext st).1.1) (newAsyncContext st).1.2).isSome
          = true := by
        rw [newAsyncContext_id, lookupCtx_newAsyncContext_self]; rfl
      rcases runInScope_fst_cases_set (newAsyncContext st).1.2 l v p
        ((newAsyncContext st).1.1) with hcs | hcs
      · rw [hcs, ← onBeforeContext_fst]
        exact inv_onBefore _ _ hinv1 hltc halc
      · rw [hcs]
        refine inv_onAfter _ _ (ih _ ?_ ?_)
        · refine inv_setLocalValue _ l v ?_
          rw [← onBeforeContext_fst]
          exact inv_onBefore _ _ hinv1 hltc halc
        · refine progOk_mono p ?_ ?_ hokp
          · rw [setLocalValue_nextCtx]
            show st.nextCtx ≤ ((newAsyncContext st).1.1).nextCtx
            rw [newAsyncContext_nextCtx]; omega
          · intro d hd
            refine lookupCtx_setLocalValue_isSome _ l v d ?_
            rw [lookupCtx_congr rfl d]
            exact lookupCtx_newAsyncContext_isSome st d hd
  | inNew p ih =>
    have hokp : ProgOk st p := fun c hc => hok c (by simp [runOnIds, hc])
    simp only [runP]
    cases hn : (newAsyncContext st).2.2 with
    | error e => exact inv_newAsyncContext st h
    | ok u =>
      have hinv1 : Inv ((newAsyncContext st).1.1) := inv_newAsyncContext st h
      have hltc : (newAsyncContext st).1.2 < ((newAsyncContext st).1.1).nextCtx := by
        rw [newAsyncContext_id, newAsyncContext_nextCtx]; omega
      have halc : (lookupCtx ((newAsyncContext st).1.1) (newAsyncContext st).1.2).isSome
          = true := by
        rw [newAsyncContext_id, lookupCtx_newAsyncContext_self]; rfl
      rcases runInScope_fst_cases_plain (newAsyncContext st).1.2 p
        ((newAsyncContext st).1.1) with hcs | hcs
      · rw [hcs, ← onBeforeContext_fst]
        exact inv_onBefore _ _ hinv1 hltc halc
      · rw [hcs]
        refine inv_onAfter _ _ (ih _ ?_ ?_)
        · rw [← onBeforeContext_fst]
          exact inv_onBefore _ _ hinv1 hltc halc
        · refine progOk_mono p ?_ ?_ hokp
          · show st.nextCtx ≤ ((newAsyncContext st).1.1).nextCtx
            rw [newAsyncContext_nextCtx]; omega
          · intro d hd
            rw [lookupCtx_congr rfl d]
            exact lookupCtx_newAsyncContext_isSome st d hd
  | runOn c' p ih =>
    obtain ⟨hb, hal⟩ := hok c' (by simp [runOnIds])
    have hokp : ProgOk st p := fun c hc => hok c (by simp [runOnIds, hc])
    simp only [runP]
    rcases runInScope_fst_cases_plain c' p st with hcs | hcs
    · rw [hcs, ← onBeforeContext_fst]
      exact inv_onBefore _ _ h hb hal
    · rw [hcs]
      refine inv_onAfter _ _ (ih _ ?_ ?_)
      · rw [← onBeforeContext_fst]
        exact inv_onBefore _ _ h hb hal
      · refine progOk_mono p (le_refl _) ?_ hokp
        intro d hd
        rw [lookupCtx_congr rfl d]
        exact hd

/-- Follow parent links from `c` for at most `fuel` steps. -/
def rootFrom (st : St V) : Nat → Nat → Nat
  | 0, c => c
  | fuel + 1, c =>
    match parentOfSt st c with
    | none => c
    | some p => rootFrom st fuel p

theorem rootFrom_fuel (st : St V) (hpd : ParentsDecreasing st) :
    ∀ c f, c < f → rootFrom st f c = rootFrom st (c + 1) c := by
  intro c
  induction c using Nat.strong_induction_on with
  | _ c ih =>
    intro f hf
    obtain ⟨f', rfl⟩ : ∃ f', f = f' + 1 := ⟨f - 1, by omega⟩
    cases hp : parentOfSt st c with
    | none => simp [rootFrom, hp]
    | some p =>
      have hplt : p < c := hpd c p hp
      have h1 : rootFrom st (f' + 1) c = rootFrom st f' p := by
        simp [rootFrom, hp]
      have h2 : rootFrom st (c + 1) c = rootFrom st c p := by
        simp [rootFrom, hp]
      rw [h1, h2, ih p hplt f' (by omega), ih p hplt c (by omega)]

theorem rootFrom_terminates (st : St V) (hpd : ParentsDecreasing st) :
    ∀ c, parentOfSt st (rootFrom st (c + 1) c) = none := by
  intro c
  induction c using Nat.strong_induction_on with
  | _ c ih =>
    cases hp : parentOfSt st c with
    | none => simp [rootFrom, hp]
    | some p =>
      have hplt : p < c := hpd c p hp
      have h1 : rootFrom st (c + 1) c = rootFrom st c p := by
        simp [rootFrom, hp]
      rw [h1, rootFrom_fuel st hpd p c hplt]
      exact ih p hplt

theorem parentOfSt_initSt (c : Nat) : parentOfSt (initSt V) c = none := by
  have h : (initSt V) = (⟨[(0, emptyCtx)], [0], [], 1⟩ : St V) := rfl
  rw [h]
  by_cases h0 : (0 : Nat) = c <;>
    simp [parentOfSt, ctxOf, lookupCtx, assocGet, h0, emptyCtx]

theorem inv_initSt : Inv (initSt V) := by
  have h : (initSt V) = (⟨[(0, emptyCtx)], [0], [], 1⟩ : St V) := rfl
  refine ⟨?_, ?_, ?_, ?_, ?_⟩
  · intro e he
    rw [h] at he ⊢
    simp at he
    rw [he]
    simp
  · intro t ht
    rw [h] at ht ⊢
    simp at ht
    subst ht
    simp
  · intro t ht
    rw [h] at ht ⊢
    simp at ht
    subst ht
    simp [lookupCtx, assocGet]
  · intro c p hp
    rw [parentOfSt_initSt] at hp
    cases hp
  · intro c p hp
    rw [parentOfSt_initSt] at hp
    cases hp

/-- C7 amended: a freshly created context's parent link is set at creation
to the context current at that moment; no call sequence built from
runInScope, the setter, withValue and sequencing (the public interface
minus wrapping an already existing context object in a new AsyncContext,
which the counterexample shows re-parents it) ever changes an existing
context's stored parent; these operations preserve the chain invariant
that every stored parent id is strictly smaller than its context's id, so
parent chains are acyclic and finite, and following one always ends at a
context whose parent is absent. -/
theorem C7_parent_set_once_amended (p : Prog V) (st : St V)
    (h : Inv st) (hok : ProgOk st p) :
    (∀ c, c < st.nextCtx → parentOfSt (runP p st).1 c = parentOfSt st c) ∧
    parentOfSt ((newAsyncContext st).1.1) st.nextCtx = currentCtx st ∧
    Inv (runP p st).1 ∧
    (∀ c, parentOfSt (runP p st).1 (rootFrom (runP p st).1 (c + 1) c) = none) := by
  have hinv := inv_runP p st h hok
  refine ⟨fun c hc => runP_parent_pres p st c hc, newAsyncContext_parent st, hinv, ?_⟩
  intro c
  exact rootFrom_terminates _ hinv.2.2.2.1 c

/-- Witness for C7 amended at a concrete input: a withValue call sequence
from the bootstrap state keeps the root's absent parent, sets a fresh
child's parent to the current context, and every chain walk ends
parentless. -/
theorem C7_parent_set_once_amended_witness :
    parentOfSt (runP (Prog.withV 0 5 Prog.ret) (initSt Nat)).1 0
      = parentOfSt (initSt Nat) 0 ∧
    parentOfSt ((newAsyncContext (initSt Nat)).1.1) (initSt Nat).nextCtx
      = currentCtx (initSt Nat) ∧
    parentOfSt (runP (Prog.withV 0 5 Prog.ret) (initSt Nat)).1
      (rootFrom (runP (Prog.withV 0 5 Prog.ret) (initSt Nat)).1 3 2) = none :=
  ⟨(C7_parent_set_once_amended (Prog.withV 0 5 Prog.ret) (initSt Nat) inv_initSt
      (fun c hc => by simp [runOnIds] at hc)).1 0 (by decide),
   (C7_parent_set_once_amended (Prog.withV 0 5 Prog.ret) (initSt Nat) inv_initSt
      (fun c hc => by simp [runOnIds] at hc)).2.1,
   (C7_parent_set_once_amended (Prog.withV 0 5 Prog.ret) (initSt Nat) inv_initSt
      (fun c hc => by simp [runOnIds] at hc)).2.2.2 2⟩

end AsyncContextSpec
